import Mathlib

/-!
Verification of the template metadata / parameter subsystem of ngcli.

The definitions below are a shallow embedding of `template/metadata.go` and
`template/template.go`: Go strings become `String`, Go `map[string]string`
becomes an association list `MapStr` (Go maps have unique keys; lookups read
the first matching entry), and the line-anchored regular expressions of the
metadata parser are translated into deterministic character scanners that
implement Go's leftmost-first matching semantics for those patterns.
-/

/-- Go `map[string]string`, modelled as an association list. -/
abbrev MapStr : Type := List (String × String)

/-- Reading `m[k]`: first entry whose key equals `k`. -/
def lookupMap : MapStr → String → Option String
  | [], _ => none
  | (k, v) :: rest, k2 => if k = k2 then some v else lookupMap rest k2

/-- Go map assignment `m[k] = v`: replace the entry for `k`, or append it. -/
def mapSet : MapStr → String → String → MapStr
  | [], k, v => [(k, v)]
  | (k0, v0) :: rest, k, v =>
    if k0 = k then (k, v) :: rest else (k0, v0) :: mapSet rest k v

/-- The character class of Go's regexp `\s`: `[\t\n\f\r ]`. -/
def reSpace (c : Char) : Bool :=
  c == ' ' || c == '\t' || c == '\n' || c == '\x0c' || c == '\r'

/-- Go `unicode.IsSpace`, used by `strings.TrimSpace`. -/
def goIsSpace (c : Char) : Bool :=
  let n := c.toNat
  (Nat.ble 9 n && Nat.ble n 13) || n == 32 || n == 133 || n == 160 ||
    n == 5760 || (Nat.ble 8192 n && Nat.ble n 8202) || n == 8232 ||
    n == 8233 || n == 8239 || n == 8287 || n == 12288

/-- Go `strings.TrimSpace`. -/
def goTrimSpace (s : String) : String :=
  String.mk (((s.data.dropWhile goIsSpace).reverse.dropWhile goIsSpace).reverse)

/-- `strings.Trim(s, "\x22")`: strip leading and trailing double quotes. -/
def goTrimQuotes (s : String) : String :=
  String.mk (((s.data.dropWhile (fun c => c == '"')).reverse.dropWhile
    (fun c => c == '"')).reverse)

/-- The character class of Go's regexp `\w`: `[0-9A-Za-z_]`. -/
def isWordChar (c : Char) : Bool :=
  let n := c.toNat
  (Nat.ble 48 n && Nat.ble n 57) || (Nat.ble 65 n && Nat.ble n 90) ||
    (Nat.ble 97 n && Nat.ble n 122) || n == 95

/-- Go `strings.Join`. -/
def joinSep (sep : String) : List String → String
  | [] => ""
  | [x] => x
  | x :: xs => x ++ sep ++ joinSep sep xs

/-- Value of a digit string, most significant digit first. -/
def digitsToNat (ds : List Char) : Nat :=
  ds.foldl (fun n c => n * 10 + (c.toNat - 48)) 0

/-- Go `strconv.Atoi` succeeds: optional sign, one or more digits, within
the 64-bit `int` range. -/
def goAtoiOk (s : String) : Bool :=
  let signed : Bool × List Char :=
    match s.data with
    | '+' :: r => (false, r)
    | '-' :: r => (true, r)
    | r => (false, r)
  let ds := signed.2
  !ds.isEmpty && ds.all (fun c => c.isDigit) &&
    Nat.ble (digitsToNat ds)
      (if signed.1 then 9223372036854775808 else 9223372036854775807)

/-- `ParameterInfo` of metadata.go (the Go field `Type` is spelled `Typ`,
since `Type` is reserved in Lean). -/
structure ParameterInfo where
  Name : String
  Typ : String
  Required : Bool
  Description : String
  Default : String
  Options : List String
deriving DecidableEq, Repr

/-- `TemplateMetadata` of metadata.go. -/
structure TemplateMetadata where
  Name : String
  Description : String
  Author : String
  Version : String
  Parameters : List ParameterInfo
deriving DecidableEq, Repr

def emptyMetadata : TemplateMetadata :=
  { Name := "", Description := "", Author := "", Version := "", Parameters := [] }

/-- Go `bufio.ScanLines` drops one trailing carriage return per line. -/
def dropCRL (cs : List Char) : List Char :=
  match cs.getLast? with
  | some '\r' => cs.dropLast
  | _ => cs

/-- All fields separated by the separator character (Go `strings.Split`
restricted to a one-character separator). -/
def splitFields (sep : Char) : List Char → List (List Char)
  | [] => [[]]
  | c :: rest =>
    if c = sep then [] :: splitFields sep rest
    else
      match splitFields sep rest with
      | [] => [[c]]
      | f :: fs => (c :: f) :: fs

/-- `bufio.Scanner` with `ScanLines` over the whole input: split on
newlines, drop a final empty token, strip one trailing `\r` per line. -/
def splitLines (s : String) : List String :=
  match s.data with
  | [] => []
  | cs =>
    let parts := splitFields '\n' cs
    let parts :=
      match parts.getLast? with
      | some last => if last.isEmpty then parts.dropLast else parts
      | none => parts
    parts.map (fun p => String.mk (dropCRL p))

/-- Key of the line pattern for the template name. -/
def keyTemplate : List Char := "Template:".data

/-- Key of the line pattern for the description. -/
def keyDescription : List Char := "Description:".data

/-- Key of the line pattern for the author. -/
def keyAuthor : List Char := "Author:".data

/-- Key of the line pattern for the version. -/
def keyVersion : List Char := "Version:".data

/-- The literal `@param`. -/
def keyParam : List Char := "@param".data

/-- Matcher for the anchored patterns of the form `#\s*<Key:>\s*(.+)$`.
Go's leftmost-first search is deterministic here: `\s*` must stop exactly at
the literal key, and the captured group (after the `TrimSpace` the caller
applies) equals the trimmed remainder; the match succeeds iff that remainder
is non-empty. -/
def matchHeaderLine (key : List Char) (cs : List Char) : Option String :=
  match cs with
  | '#' :: r =>
    let r1 := r.dropWhile reSpace
    if key.isPrefixOf r1 then
      let after := r1.drop key.length
      if after.isEmpty then none
      else some (goTrimSpace (String.mk after))
    else none
  | _ => none

/-- `\s+`: one whitespace character then greedily all following ones. -/
def dropSpaces1 (cs : List Char) : Option (List Char) :=
  match cs with
  | c :: rest => if reSpace c then some (rest.dropWhile reSpace) else none
  | [] => none

/-- `(\w+)`: a maximal non-empty word-character run. -/
def takeWord (cs : List Char) : Option (List Char × List Char) :=
  if (cs.takeWhile isWordChar).isEmpty then none
  else some (cs.takeWhile isWordChar, cs.drop (cs.takeWhile isWordChar).length)

/-- `(required|optional)`: leftmost-first alternation of the two literals. -/
def takeReqTok (cs : List Char) : Option (String × List Char) :=
  if ("required".data).isPrefixOf cs then some ("required", cs.drop 8)
  else if ("optional".data).isPrefixOf cs then some ("optional", cs.drop 8)
  else none

/-- The five captured groups of the `@param` line pattern. -/
structure ParamMatch where
  name : String
  typ : String
  req : String
  desc : String
  attrs : String
deriving DecidableEq, Repr

/-- Matcher for
`^#\s*@param\s+(\w+)\s+(\w+)\s+(required|optional)\s+"([^"]+)"(?:\s+(.*))?$`.
Adjacent classes are disjoint, so Go's backtracking search is again
deterministic; `attrs` is the fifth group, empty when the optional trailing
group is absent. -/
def matchParamLine (cs : List Char) : Option ParamMatch :=
  match cs with
  | '#' :: r0 =>
    let r1 := r0.dropWhile reSpace
    if keyParam.isPrefixOf r1 then
      match dropSpaces1 (r1.drop 6) with
      | none => none
      | some r2 =>
        match takeWord r2 with
        | none => none
        | some (nm, r3) =>
          match dropSpaces1 r3 with
          | none => none
          | some r4 =>
            match takeWord r4 with
            | none => none
            | some (ty, r5) =>
              match dropSpaces1 r5 with
              | none => none
              | some r6 =>
                match takeReqTok r6 with
                | none => none
                | some (req, r7) =>
                  match dropSpaces1 r7 with
                  | none => none
                  | some r8 =>
                    match r8 with
                    | '"' :: r9 =>
                      let d := r9.takeWhile (fun c => !(c == '"'))
                      if d.isEmpty then none
                      else
                        match r9.drop d.length with
                        | '"' :: r10 =>
                          match r10 with
                          | [] =>
                            some ⟨String.mk nm, String.mk ty, req, String.mk d, ""⟩
                          | c :: _ =>
                            if reSpace c then
                              some ⟨String.mk nm, String.mk ty, req, String.mk d,
                                String.mk (r10.dropWhile reSpace)⟩
                            else none
                        | _ => none
                    | _ => none
    else none
  | _ => none

/-- One attempt of `default=([^,\s]+|"[^"]*")` at a fixed position.  The
first alternative is preferred (Go regexp is leftmost-first), so whenever a
non-comma non-space character follows `default=` the bare-token branch wins,
even when that character is an opening quote. -/
def matchDefaultAt (cs : List Char) : Option (List Char) :=
  if ("default=".data).isPrefixOf cs then
    let r := cs.drop 8
    let t := r.takeWhile (fun c => !(c == ',' || reSpace c))
    if !t.isEmpty then some t
    else
      match r with
      | '"' :: r2 =>
        let body := r2.takeWhile (fun c => !(c == '"'))
        match r2.drop body.length with
        | '"' :: _ => some ('"' :: (body ++ ['"']))
        | _ => none
      | _ => none
  else none

/-- Leftmost match of the `default=` pattern over the attribute text. -/
def findDefaultMatch : List Char → Option (List Char)
  | [] => none
  | c :: rest =>
    match matchDefaultAt (c :: rest) with
    | some t => some t
    | none => findDefaultMatch rest

/-- One attempt of `options=\[([^\]]+)\]` at a fixed position. -/
def matchOptionsAt (cs : List Char) : Option (List Char) :=
  if ("options=[".data).isPrefixOf cs then
    let r := cs.drop 9
    let body := r.takeWhile (fun c => !(c == ']'))
    if body.isEmpty then none
    else
      match r.drop body.length with
      | ']' :: _ => some body
      | _ => none
  else none

/-- Leftmost match of the `options=` pattern over the attribute text. -/
def findOptionsMatch : List Char → Option (List Char)
  | [] => none
  | c :: rest =>
    match matchOptionsAt (c :: rest) with
    | some t => some t
    | none => findOptionsMatch rest

/-- `parseParameterAttributes` of metadata.go. -/
def parseParameterAttributes (attributes : String) : String × List String :=
  let defaultValue :=
    match findDefaultMatch attributes.data with
    | some cap => goTrimQuotes (String.mk cap)
    | none => ""
  let options :=
    match findOptionsMatch attributes.data with
    | some inner =>
      (splitFields ',' inner).filterMap (fun opt =>
        let cleaned := goTrimQuotes (goTrimSpace (String.mk opt))
        if cleaned == "" then none else some cleaned)
    | none => []
  (defaultValue, options)

/-- `strings.HasPrefix(line, "#")`. -/
def goStartsWithHash (line : String) : Bool :=
  match line.data with
  | '#' :: _ => true
  | _ => false

/-- The per-line regex cascade of `ParseTemplateMetadata` (first match
wins; unmatched lines leave the metadata unchanged). -/
def applyLine (md : TemplateMetadata) (line : String) : TemplateMetadata :=
  let cs := line.data
  match matchHeaderLine keyTemplate cs with
  | some v => { md with Name := v }
  | none =>
  match matchHeaderLine keyDescription cs with
  | some v => { md with Description := v }
  | none =>
  match matchHeaderLine keyAuthor cs with
  | some v => { md with Author := v }
  | none =>
  match matchHeaderLine keyVersion cs with
  | some v => { md with Version := v }
  | none =>
  match matchParamLine cs with
  | some pr =>
    let da :=
      if !(pr.attrs == "") then parseParameterAttributes pr.attrs
      else ("", ([] : List String))
    { md with Parameters := md.Parameters ++
        [{ Name := pr.name, Typ := pr.typ, Required := pr.req == "required",
           Description := pr.desc, Default := da.1, Options := da.2 }] }
  | none => md

/-- The scanner loop of `ParseTemplateMetadata`: trim each line, stop at the
first line that neither is blank nor starts with `#`, otherwise fold the
line cascade. -/
def parseLines (md : TemplateMetadata) : List String → TemplateMetadata
  | [] => md
  | l :: rest =>
    let line := goTrimSpace l
    if !goStartsWithHash line && !(line == "") then md
    else parseLines (applyLine md line) rest

/-- The pure result of `ParseTemplateMetadata`. -/
def parseMetadata (s : String) : TemplateMetadata :=
  parseLines emptyMetadata (splitLines s)

/-- `ParseTemplateMetadata` of metadata.go; the Go function has an error
result but always returns `nil` for it. -/
def ParseTemplateMetadata (s : String) : Except String TemplateMetadata :=
  .ok (parseMetadata s)

/-- `validateParameterValue` of metadata.go: the type switch, then the
options membership check. -/
def validateParameterValue (p : ParameterInfo) (value : String) : Option String :=
  let typeErr : Option String :=
    if p.Typ = "integer" then
      if goAtoiOk value then none else some "must be an integer"
    else if p.Typ = "boolean" then
      if value = "true" ∨ value = "false" then none
      else some "must be true or false"
    else if p.Typ = "file_path" then
      if goTrimSpace value = "" then some "file path cannot be empty" else none
    else none
  match typeErr with
  | some e => some e
  | none =>
    if !p.Options.isEmpty then
      if value ∈ p.Options then none
      else some ("must be one of: " ++ joinSep ", " p.Options)
    else none

/-- One iteration of the `ValidateParameters` loop, accumulating the
`missing` and `invalid` slices. -/
def validateStep (acc : List String × List String) (params : MapStr)
    (p : ParameterInfo) : List String × List String :=
  let m1 :=
    if p.Required && (lookupMap params p.Name).isNone then acc.1 ++ [p.Name]
    else acc.1
  let i1 :=
    match lookupMap params p.Name with
    | some v =>
      match validateParameterValue p v with
      | some e => acc.2 ++ [p.Name ++ ": " ++ e]
      | none => acc.2
    | none => acc.2
  (m1, i1)

/-- The error construction at the end of `ValidateParameters`: the missing
names win; invalid entries are reported only when nothing is missing. -/
def mkValMsg (acc : List String × List String) : Option String :=
  if acc.1 ≠ [] then
    some ("missing required parameters: " ++ joinSep ", " acc.1)
  else if acc.2 ≠ [] then
    some ("invalid parameter values: " ++ joinSep "; " acc.2)
  else none

/-- `ValidateParameters` of metadata.go (`none` = `nil` error). -/
def ValidateParameters (m : TemplateMetadata) (params : MapStr) : Option String :=
  mkValMsg (m.Parameters.foldl (fun acc p => validateStep acc params p) ([], []))

/-- The names collected in the `missing` slice of `ValidateParameters`,
in declaration order. -/
def missingOfList (params : MapStr) (ps : List ParameterInfo) : List String :=
  (ps.filter (fun p => p.Required && (lookupMap params p.Name).isNone)).map
    (fun p => p.Name)

/-- The entries collected in the `invalid` slice of `ValidateParameters`. -/
def invalidOfList (params : MapStr) (ps : List ParameterInfo) : List String :=
  ps.filterMap (fun p =>
    match lookupMap params p.Name with
    | some v =>
      match validateParameterValue p v with
      | some e => some (p.Name ++ ": " ++ e)
      | none => none
    | none => none)

/-- Missing-required names for a metadata and a parameter mapping. -/
def missingOf (m : TemplateMetadata) (params : MapStr) : List String :=
  missingOfList params m.Parameters

/-- Invalid-value entries for a metadata and a parameter mapping. -/
def invalidOf (m : TemplateMetadata) (params : MapStr) : List String :=
  invalidOfList params m.Parameters

/-- One iteration of the defaults loop of `ApplyDefaults`. -/
def defStep (acc : MapStr) (p : ParameterInfo) : MapStr :=
  if lookupMap acc p.Name = none ∧ p.Default ≠ "" then
    mapSet acc p.Name p.Default
  else acc

/-- `ApplyDefaults` of metadata.go: start from a copy of the input (a pure
value here) and fill each declared parameter's non-empty default for keys
not yet present. -/
def ApplyDefaults (m : TemplateMetadata) (params : MapStr) : MapStr :=
  m.Parameters.foldl defStep params

/-- The copy loop of `ApplyDefaults`, at the level of map operations: the
state is (caller's map, fresh result map); the caller's map is only read. -/
def copyStep (s : MapStr × MapStr) (kv : String × String) : MapStr × MapStr :=
  (s.1, mapSet s.2 kv.1 kv.2)

/-- One iteration of the defaults loop at the level of map operations:
reads and writes only the result component. -/
def defStepOp (s : MapStr × MapStr) (p : ParameterInfo) : MapStr × MapStr :=
  if lookupMap s.2 p.Name = none ∧ p.Default ≠ "" then
    (s.1, mapSet s.2 p.Name p.Default)
  else s

/-- `ApplyDefaults` with the caller's map threaded through every operation,
returning (caller's map after the call, returned fresh map). -/
def ApplyDefaultsOp (m : TemplateMetadata) (caller : MapStr) : MapStr × MapStr :=
  let s1 := caller.foldl copyStep (caller, [])
  m.Parameters.foldl defStepOp s1

/-- One iteration of the validation loop at the level of map operations:
the caller's map is only read. -/
def valStepOp (s : (List String × List String) × MapStr) (p : ParameterInfo) :
    (List String × List String) × MapStr :=
  (validateStep s.1 s.2 p, s.2)

/-- `ValidateParameters` with the caller's map threaded through the loop,
returning (error result, caller's map after the call). -/
def ValidateParametersOp (m : TemplateMetadata) (caller : MapStr) :
    Option String × MapStr :=
  let st := m.Parameters.foldl valStepOp (([], []), caller)
  (mkValMsg st.1, st.2)

/-- A brace character, written via its code point. -/
def lbrace : Char := '\x7b'

/-- A closing brace character, written via its code point. -/
def rbrace : Char := '\x7d'

/-- Modelled from the spec: one segment of the compiled substitution
engine.  The engine itself (Go's text/template) is external to this
repository; per §4.2/§6 of the spec a template body is literal text with
named placeholders, each bound to a parameter name. -/
inductive Seg where
  | lit (text : String)
  | var (name : String)
deriving DecidableEq, Repr

/-- Modelled from the spec: compiling a template body.  The body is scanned
for placeholder openers (two braces); the placeholder name runs to the
closing pair of braces, with surrounding whitespace trimmed.  An unclosed
placeholder is the Parse failure condition of §4.2. -/
def engineScan : Bool × Option (List Char) × List Char → List Char →
    Except String (List Seg)
  | (false, none, acc), [] =>
    .ok (if acc.isEmpty then [] else [Seg.lit (String.mk acc.reverse)])
  | (true, none, acc), [] =>
    .ok [Seg.lit (String.mk (lbrace :: acc).reverse)]
  | (_, some _, _), [] => .error "unclosed action"
  | (false, none, acc), c :: rest =>
    if c = lbrace then engineScan (true, none, acc) rest
    else engineScan (false, none, c :: acc) rest
  | (true, none, acc), c :: rest =>
    if c = lbrace then engineScan (false, some [], acc) rest
    else engineScan (false, none, c :: lbrace :: acc) rest
  | (false, some nm, acc), c :: rest =>
    if c = rbrace then engineScan (true, some nm, acc) rest
    else engineScan (false, some (c :: nm), acc) rest
  | (true, some nm, acc), c :: rest =>
    if c = rbrace then
      match engineScan (false, none, []) rest with
      | .error e => .error e
      | .ok segs =>
        .ok ((if acc.isEmpty then [] else [Seg.lit (String.mk acc.reverse)]) ++
          Seg.var (goTrimSpace (String.mk nm.reverse)) :: segs)
    else engineScan (false, some (c :: rbrace :: nm), acc) rest

/-- Modelled from the spec: `engineParse` compiles a raw body into
segments. -/
def engineParse (s : String) : Except String (List Seg) :=
  engineScan (false, none, []) s.data

/-- Modelled from the spec: rendering substitutes each placeholder with the
entry of the parameter mapping under its exact name; a missing key renders
as the empty string (the engine's zero-value choice, §4.2/§9). -/
def engineRender (segs : List Seg) (params : MapStr) : String :=
  segs.foldl
    (fun out seg =>
      match seg with
      | Seg.lit t => out ++ t
      | Seg.var n => out ++ (lookupMap params n).getD "")
    ""

/-- `Template` of template.go (the filesystem path is owned by the CLI and
omitted; the compiled engine is the segment list). -/
structure Template where
  Name : String
  Content : String
  Engine : List Seg
  Metadata : TemplateMetadata
deriving DecidableEq, Repr

/-- The content-processing part of `LoadTemplate` (lines 36-52 of
template.go): compile the engine, parse the metadata, build the value.
The file lookup and read that precede it are I/O wrappers. -/
def loadTemplateFromContent (name content : String) : Except String Template :=
  match engineParse content with
  | .error e => .error ("failed to parse template: " ++ e)
  | .ok segs =>
    match ParseTemplateMetadata content with
    | .error e => .error ("failed to parse template metadata: " ++ e)
    | .ok md =>
      .ok { Name := name, Content := content, Engine := segs, Metadata := md }

/-- `Render` of template.go over the modelled engine. -/
def Render (t : Template) (params : MapStr) : Except String String :=
  .ok (engineRender t.Engine params)

/-- `RenderWithValidation` of template.go: apply defaults, validate the
resolved mapping, then render it. -/
def RenderWithValidation (t : Template) (params : MapStr) :
    Except String String :=
  let paramsWithDefaults := ApplyDefaults t.Metadata params
  match ValidateParameters t.Metadata paramsWithDefaults with
  | some e => .error e
  | none => Render t paramsWithDefaults

/-! ### Map lemmas -/

theorem lookupMap_mapSet (m : MapStr) (k v k2 : String) :
    lookupMap (mapSet m k v) k2 = if k = k2 then some v else lookupMap m k2 := by
  induction m with
  | nil => simp [lookupMap, mapSet]
  | cons kv rest ih =>
    obtain ⟨k0, v0⟩ := kv
    by_cases h0 : k0 = k
    · subst h0
      simp only [mapSet, if_pos rfl, lookupMap]
      by_cases h2 : k0 = k2 <;> simp [h2, lookupMap]
    · simp only [mapSet, if_neg h0, lookupMap]
      by_cases h2 : k0 = k2
      · subst h2
        have hk : ¬ k = k0 := fun h => h0 h.symm
        simp [hk]
      · simp [h2, ih]

theorem mapSet_of_lookup_none (m : MapStr) (k v : String)
    (h : lookupMap m k = none) : mapSet m k v = m ++ [(k, v)] := by
  induction m with
  | nil => simp [mapSet]
  | cons kv rest ih =>
    obtain ⟨k0, v0⟩ := kv
    simp only [lookupMap] at h
    by_cases h0 : k0 = k
    · simp [h0] at h
    · simp only [mapSet, if_neg h0, List.cons_append, List.cons.injEq, true_and]
      exact ih (by simpa [h0] using h)

theorem lookupMap_append (a b : MapStr) (k : String) :
    lookupMap (a ++ b) k =
      match lookupMap a k with
      | some v => some v
      | none => lookupMap b k := by
  induction a with
  | nil => simp [lookupMap]
  | cons kv rest ih =>
    obtain ⟨k0, v0⟩ := kv
    by_cases h0 : k0 = k <;> simp [lookupMap, h0, ih]

/-! ### Lemmas about the defaults fold -/

theorem lookup_defStep_some (acc : MapStr) (p : ParameterInfo) (k v : String)
    (h : lookupMap acc k = some v) : lookupMap (defStep acc p) k = some v := by
  unfold defStep
  split
  · next hc =>
    rw [lookupMap_mapSet]
    split
    · next he => rw [← he] at h; rw [hc.1] at h; exact absurd h (by simp)
    · exact h
  · exact h

theorem lookup_foldDef_some (ps : List ParameterInfo) (acc : MapStr)
    (k v : String) (h : lookupMap acc k = some v) :
    lookupMap (ps.foldl defStep acc) k = some v := by
  induction ps generalizing acc with
  | nil => simpa using h
  | cons q rest ih =>
    simp only [List.foldl_cons]
    exact ih (defStep acc q) (lookup_defStep_some acc q k v h)

theorem lookup_foldDef_present (ps : List ParameterInfo) (acc : MapStr)
    (p : ParameterInfo) (hp : p ∈ ps) (hd : p.Default ≠ "") :
    (lookupMap (ps.foldl defStep acc) p.Name).isSome = true := by
  induction ps generalizing acc with
  | nil => cases hp
  | cons q rest ih =>
    simp only [List.foldl_cons]
    rcases List.mem_cons.mp hp with hq | hrest
    · subst hq
      have hsome : ∃ v, lookupMap (defStep acc p) p.Name = some v := by
        unfold defStep
        split
        · exact ⟨p.Default, by rw [lookupMap_mapSet]; simp⟩
        · next hc =>
          rcases hl : lookupMap acc p.Name with _ | v
          · exact absurd ⟨hl, hd⟩ hc
          · exact ⟨v, rfl⟩
      obtain ⟨v, hv⟩ := hsome
      rw [lookup_foldDef_some rest (defStep acc p) p.Name v hv]
      rfl
    · exact ih (defStep acc q) hrest

theorem foldDef_noop (ps : List ParameterInfo) (acc : MapStr)
    (h : ∀ p ∈ ps, p.Default ≠ "" → lookupMap acc p.Name ≠ none) :
    ps.foldl defStep acc = acc := by
  induction ps with
  | nil => rfl
  | cons q rest ih =>
    have hq : defStep acc q = acc := by
      unfold defStep
      split
      · next hc => exact absurd hc.1 (h q (List.mem_cons_self q rest) hc.2)
      · rfl
    simp only [List.foldl_cons, hq]
    exact ih (fun p hp => h p (List.mem_cons_of_mem q hp))

/-! ### The validation fold computes the two slices -/

theorem foldVal_eq (params : MapStr) (ps : List ParameterInfo)
    (a b : List String) :
    ps.foldl (fun acc p => validateStep acc params p) (a, b) =
      (a ++ missingOfList params ps, b ++ invalidOfList params ps) := by
  induction ps generalizing a b with
  | nil => simp [missingOfList, invalidOfList]
  | cons q rest ih =>
    simp only [List.foldl_cons]
    have hstep : validateStep (a, b) params q =
        ((if q.Required && (lookupMap params q.Name).isNone
          then a ++ [q.Name] else a),
         (match lookupMap params q.Name with
          | some v =>
            match validateParameterValue q v with
            | some e => b ++ [q.Name ++ ": " ++ e]
            | none => b
          | none => b)) := rfl
    rw [hstep, ih]
    simp only [missingOfList, invalidOfList, List.filter_cons,
      List.filterMap_cons]
    rw [Prod.mk.injEq]
    refine ⟨?_, ?_⟩
    · by_cases hf : (q.Required && (lookupMap params q.Name).isNone) = true
      · simp [hf, List.append_assoc]
      · simp [hf]
    · rcases hl : lookupMap params q.Name with _ | v
      · simp
      · rcases he : validateParameterValue q v with _ | e
        · simp [he]
        · simp [he, List.append_assoc]

theorem validateParameters_eq (m : TemplateMetadata) (params : MapStr) :
    ValidateParameters m params = mkValMsg (missingOf m params, invalidOf m params) := by
  unfold ValidateParameters missingOf invalidOf
  rw [foldVal_eq]
  simp

/-! ### Congruence helpers for single-pass accumulations -/

theorem filterCongrMem {α : Type} (f g : α → Bool) (l : List α)
    (h : ∀ a ∈ l, f a = g a) : l.filter f = l.filter g := by
  induction l with
  | nil => rfl
  | cons x xs ih =>
    simp only [List.filter_cons]
    rw [h x (List.mem_cons_self x xs),
      ih (fun a ha => h a (List.mem_cons_of_mem x ha))]

theorem filterMapCongrMem {α β : Type} (f g : α → Option β) (l : List α)
    (h : ∀ a ∈ l, f a = g a) : l.filterMap f = l.filterMap g := by
  induction l with
  | nil => rfl
  | cons x xs ih =>
    simp only [List.filterMap_cons]
    rw [h x (List.mem_cons_self x xs),
      ih (fun a ha => h a (List.mem_cons_of_mem x ha))]

/-- Substring test on character lists (some suffix has the needle as
prefix). -/
def listContainsSub (hay needle : List Char) : Bool :=
  needle.isPrefixOf hay ||
    match hay with
    | [] => false
    | _ :: t => listContainsSub t needle

/-- Metadata with a required string parameter `a` and an optional boolean
parameter `b`. -/
def c1meta : TemplateMetadata :=
  { Name := "", Description := "", Author := "", Version := "",
    Parameters :=
      [{ Name := "a", Typ := "string", Required := true, Description := "d",
         Default := "", Options := [] },
       { Name := "b", Typ := "boolean", Required := false, Description := "d",
         Default := "", Options := [] }] }

/-- Metadata with only the boolean parameter `b`. -/
def c1metaInv : TemplateMetadata :=
  { Name := "", Description := "", Author := "", Version := "",
    Parameters :=
      [{ Name := "b", Typ := "boolean", Required := false, Description := "d",
         Default := "", Options := [] }] }

/-- A mapping that omits `a` and gives `b` a non-boolean value. -/
def c1params : MapStr := [("b", "maybe")]

/-- C1 counterexample: with `a` missing and `b` invalid, both violation
slices are non-empty, yet the returned error is the missing-only message;
the invalid entry does not even occur in it as a substring, so the two sets
are not reported together in one composite error. -/
theorem validate_composite_refuted :
    missingOf c1meta c1params = ["a"] ∧
    invalidOf c1meta c1params = ["b: must be true or false"] ∧
    ValidateParameters c1meta c1params =
      some "missing required parameters: a" ∧
    listContainsSub ("missing required parameters: a".data)
      ("b: must be true or false".data) = false := by
  refine ⟨by decide, by decide, by decide, by decide⟩

/-- C1 (amended): the missing set wins.  When any required parameter is
missing, the error enumerates exactly the missing names (comma-joined) and
omits the invalid entries; the invalid entries (semicolon-joined) are
reported only when the missing set is empty. -/
theorem validate_error_priority (m : TemplateMetadata) (params : MapStr) :
    (missingOf m params ≠ [] →
      ValidateParameters m params =
        some ("missing required parameters: " ++
          joinSep ", " (missingOf m params))) ∧
    (missingOf m params = [] → invalidOf m params ≠ [] →
      ValidateParameters m params =
        some ("invalid parameter values: " ++
          joinSep "; " (invalidOf m params))) := by
  rw [validateParameters_eq]
  unfold mkValMsg
  refine ⟨fun h => ?_, fun h0 h1 => ?_⟩
  · simp only [h, if_pos]
    split
    · rfl
    · next hn => exact absurd h hn
  · simp [h0, h1]

/-- Witness for `validate_error_priority` at concrete inputs. -/
theorem validate_error_priority_witness :
    ValidateParameters c1meta c1params =
      some ("missing required parameters: " ++
        joinSep ", " (missingOf c1meta c1params)) ∧
    ValidateParameters c1metaInv c1params =
      some ("invalid parameter values: " ++
        joinSep "; " (invalidOf c1metaInv c1params)) :=
  ⟨(validate_error_priority c1meta c1params).1 (by decide),
   (validate_error_priority c1metaInv c1params).2 (by decide) (by decide)⟩

/-- C8: `ApplyDefaults` is idempotent as a mapping: a second application
changes no binding, since every parameter with a non-empty default is
already bound after the first application. -/
theorem applyDefaults_idem (m : TemplateMetadata) (params : MapStr)
    (k : String) :
    lookupMap (ApplyDefaults m (ApplyDefaults m params)) k =
      lookupMap (ApplyDefaults m params) k := by
  have h : ApplyDefaults m (ApplyDefaults m params) = ApplyDefaults m params := by
    unfold ApplyDefaults
    apply foldDef_noop
    intro p hp hd hn
    have hs := lookup_foldDef_present m.Parameters params p hp hd
    rw [hn] at hs
    simp at hs
  rw [h]

/-- C2: a required parameter that declares a non-empty default is never in
the missing slice after default application — `RenderWithValidation`
applies `ApplyDefaults` before `ValidateParameters`, so the default always
satisfies the required-check, whatever the caller supplies. -/
theorem requiredDefault_neverMissing (m : TemplateMetadata) (params : MapStr)
    (p : ParameterInfo) (hp : p ∈ m.Parameters) (_hr : p.Required = true)
    (hd : p.Default ≠ "") :
    p.Name ∉ missingOf m (ApplyDefaults m params) := by
  intro hmem
  unfold missingOf missingOfList at hmem
  obtain ⟨q, hqf, hqn⟩ := List.mem_map.mp hmem
  have hq2 := List.mem_filter.mp hqf
  have hnone : (lookupMap (ApplyDefaults m params) q.Name).isNone = true :=
    (Bool.and_eq_true _ _ |>.mp hq2.2).2
  have hsome := lookup_foldDef_present m.Parameters params p hp hd
  have hqp : q.Name = p.Name := hqn
  rw [hqp] at hnone
  unfold ApplyDefaults at hnone
  rw [Option.isNone_iff_eq_none.mp hnone] at hsome
  cases hsome

/-- Metadata with a single required parameter that has a default. -/
def c2meta : TemplateMetadata :=
  { Name := "", Description := "", Author := "", Version := "",
    Parameters :=
      [{ Name := "host", Typ := "string", Required := true,
         Description := "d", Default := "localhost", Options := [] }] }

/-- Witness for `requiredDefault_neverMissing`: even with an empty caller
mapping, the required-with-default parameter is not reported missing. -/
theorem requiredDefault_neverMissing_witness :
    "host" ∉ missingOf c2meta (ApplyDefaults c2meta []) :=
  requiredDefault_neverMissing c2meta []
    { Name := "host", Typ := "string", Required := true, Description := "d",
      Default := "localhost", Options := [] }
    (by decide) (by decide) (by decide)

/-- C10: validation reads only the entries bound to declared parameter
names: mappings agreeing on every declared name validate identically, and
setting any undeclared key never changes the result (in particular it never
causes a failure). -/
theorem validate_declaredOnly (m : TemplateMetadata) (p1 p2 : MapStr)
    (k v : String) :
    ((∀ q ∈ m.Parameters, lookupMap p1 q.Name = lookupMap p2 q.Name) →
      ValidateParameters m p1 = ValidateParameters m p2) ∧
    ((∀ q ∈ m.Parameters, q.Name ≠ k) →
      ValidateParameters m (mapSet p1 k v) = ValidateParameters m p1) := by
  have hmain : ∀ (pa pb : MapStr),
      (∀ q ∈ m.Parameters, lookupMap pa q.Name = lookupMap pb q.Name) →
      ValidateParameters m pa = ValidateParameters m pb := by
    intro pa pb hagree
    rw [validateParameters_eq, validateParameters_eq]
    have hm : missingOf m pa = missingOf m pb := by
      unfold missingOf missingOfList
      rw [filterCongrMem _ _ _ (fun q hq => by rw [hagree q hq])]
    have hi : invalidOf m pa = invalidOf m pb := by
      unfold invalidOf invalidOfList
      rw [filterMapCongrMem _ _ _ (fun q hq => by rw [hagree q hq])]
    rw [hm, hi]
  refine ⟨hmain p1 p2, fun hnk => hmain (mapSet p1 k v) p1 (fun q hq => ?_)⟩
  rw [lookupMap_mapSet]
  have hne : ¬ k = q.Name := fun h => (hnk q hq) h.symm
  simp [hne]

/-- Metadata declaring only the parameter `x`. -/
def c10meta : TemplateMetadata :=
  { Name := "", Description := "", Author := "", Version := "",
    Parameters :=
      [{ Name := "x", Typ := "string", Required := true, Description := "d",
         Default := "", Options := [] }] }

/-- Witness for `validate_declaredOnly`: an extra undeclared entry `z` is
ignored, both in comparison form and under insertion. -/
theorem validate_declaredOnly_witness :
    ValidateParameters c10meta [("x", "1"), ("z", "9")] =
      ValidateParameters c10meta [("x", "1")] ∧
    ValidateParameters c10meta (mapSet [("x", "1")] "z" "9") =
      ValidateParameters c10meta [("x", "1")] :=
  ⟨(validate_declaredOnly c10meta [("x", "1"), ("z", "9")] [("x", "1")]
      "z" "9").1 (by decide),
   (validate_declaredOnly c10meta [("x", "1")] [("x", "1")] "z" "9").2
      (by decide)⟩

/-! ### Lemmas for the operation-level model (C9) -/

theorem copyFold_fst (l : List (String × String)) (s : MapStr × MapStr) :
    (l.foldl copyStep s).1 = s.1 := by
  induction l generalizing s with
  | nil => rfl
  | cons kv rest ih =>
    simp only [List.foldl_cons]
    rw [ih]
    rfl

theorem copyFold_snd (l : List (String × String)) (c acc : MapStr) :
    (l.foldl copyStep (c, acc)).2 =
      l.foldl (fun r kv => mapSet r kv.1 kv.2) acc := by
  induction l generalizing acc with
  | nil => rfl
  | cons kv rest ih =>
    simp only [List.foldl_cons]
    exact ih (mapSet acc kv.1 kv.2)

theorem copyBuild (l : List (String × String)) (acc : MapStr)
    (hnd : (l.map Prod.fst).Nodup)
    (hfresh : ∀ kv ∈ l, lookupMap acc kv.1 = none) :
    l.foldl (fun r kv => mapSet r kv.1 kv.2) acc = acc ++ l := by
  induction l generalizing acc with
  | nil => simp
  | cons kv rest ih =>
    obtain ⟨k, v⟩ := kv
    simp only [List.foldl_cons]
    have hset : mapSet acc k v = acc ++ [(k, v)] :=
      mapSet_of_lookup_none acc k v (hfresh (k, v) (List.mem_cons_self _ _))
    rw [hset]
    have hnd2 : (rest.map Prod.fst).Nodup := (List.nodup_cons.mp (by simpa using hnd)).2
    have hknotin : k ∉ rest.map Prod.fst := (List.nodup_cons.mp (by simpa using hnd)).1
    have hfresh2 : ∀ kv2 ∈ rest, lookupMap (acc ++ [(k, v)]) kv2.1 = none := by
      intro kv2 hkv2
      rw [lookupMap_append]
      rw [hfresh kv2 (List.mem_cons_of_mem _ hkv2)]
      have hne : ¬ k = kv2.1 := by
        intro he
        exact hknotin (he ▸ List.mem_map_of_mem Prod.fst hkv2)
      simp [lookupMap, hne]
    rw [ih (acc ++ [(k, v)]) hnd2 hfresh2, List.append_assoc]
    rfl

theorem defFoldOp_fst (ps : List ParameterInfo) (s : MapStr × MapStr) :
    (ps.foldl defStepOp s).1 = s.1 := by
  induction ps generalizing s with
  | nil => rfl
  | cons q rest ih =>
    simp only [List.foldl_cons]
    rw [ih]
    unfold defStepOp
    split <;> rfl

theorem defFoldOp_snd (ps : List ParameterInfo) (s : MapStr × MapStr) :
    (ps.foldl defStepOp s).2 = ps.foldl defStep s.2 := by
  induction ps generalizing s with
  | nil => rfl
  | cons q rest ih =>
    simp only [List.foldl_cons]
    rw [ih]
    have hsnd : (defStepOp s q).2 = defStep s.2 q := by
      unfold defStepOp defStep
      split <;> rfl
    rw [hsnd]

theorem valFold_eq (ps : List ParameterInfo) (a : List String × List String)
    (c : MapStr) :
    ps.foldl valStepOp (a, c) =
      (ps.foldl (fun acc p => validateStep acc c p) a, c) := by
  induction ps generalizing a with
  | nil => rfl
  | cons q rest ih =>
    simp only [List.foldl_cons]
    exact ih (validateStep a c q)

/-- C9: neither `ApplyDefaults` nor `ValidateParameters` mutates the
caller's mapping: threading it through every map operation returns it
unchanged, the map `ApplyDefaults` returns is a fresh one built by the copy
loop (equal to the functional result whenever the caller's map is a
well-formed map, i.e. has no duplicate keys), and the validation verdict is
unchanged by the threading. -/
theorem noCallerMutation (m : TemplateMetadata) (caller : MapStr) :
    (ApplyDefaultsOp m caller).1 = caller ∧
    ((caller.map Prod.fst).Nodup →
      (ApplyDefaultsOp m caller).2 = ApplyDefaults m caller) ∧
    (ValidateParametersOp m caller).2 = caller ∧
    (ValidateParametersOp m caller).1 = ValidateParameters m caller := by
  refine ⟨?_, fun hnd => ?_, ?_, ?_⟩
  · unfold ApplyDefaultsOp
    rw [defFoldOp_fst, copyFold_fst]
  · unfold ApplyDefaultsOp ApplyDefaults
    rw [defFoldOp_snd, copyFold_snd]
    rw [copyBuild caller [] hnd (fun kv _ => rfl)]
    rfl
  · unfold ValidateParametersOp
    rw [valFold_eq]
  · unfold ValidateParametersOp ValidateParameters
    rw [valFold_eq]

/-- Caller mapping for the C9 witness. -/
def c9caller : MapStr := [("a", "1")]

/-- Metadata for the C9 witness: one optional parameter with a default. -/
def c9meta : TemplateMetadata :=
  { Name := "", Description := "", Author := "", Version := "",
    Parameters :=
      [{ Name := "p", Typ := "string", Required := false, Description := "d",
         Default := "dv", Options := [] }] }

/-- Witness for `noCallerMutation` at concrete inputs. -/
theorem noCallerMutation_witness :
    (ApplyDefaultsOp c9meta c9caller).1 = c9caller ∧
    (ApplyDefaultsOp c9meta c9caller).2 = ApplyDefaults c9meta c9caller ∧
    (ValidateParametersOp c9meta c9caller).2 = c9caller :=
  ⟨(noCallerMutation c9meta c9caller).1,
   (noCallerMutation c9meta c9caller).2.1 (by decide),
   (noCallerMutation c9meta c9caller).2.2.1⟩

/-! ### C6 and C7: the scanner loop -/

/-- A line (already trimmed) matches one of the five metadata patterns. -/
def lineMatchesMeta (line : String) : Bool :=
  (matchHeaderLine keyTemplate line.data).isSome ||
    (matchHeaderLine keyDescription line.data).isSome ||
    (matchHeaderLine keyAuthor line.data).isSome ||
    (matchHeaderLine keyVersion line.data).isSome ||
    (matchParamLine line.data).isSome

theorem applyLine_noMatch (md : TemplateMetadata) (line : String)
    (h : lineMatchesMeta line = false) : applyLine md line = md := by
  have h1 : matchHeaderLine keyTemplate line.data = none := by
    cases hx : matchHeaderLine keyTemplate line.data
    · rfl
    · simp [lineMatchesMeta, hx] at h
  have h2 : matchHeaderLine keyDescription line.data = none := by
    cases hx : matchHeaderLine keyDescription line.data
    · rfl
    · simp [lineMatchesMeta, hx] at h
  have h3 : matchHeaderLine keyAuthor line.data = none := by
    cases hx : matchHeaderLine keyAuthor line.data
    · rfl
    · simp [lineMatchesMeta, hx] at h
  have h4 : matchHeaderLine keyVersion line.data = none := by
    cases hx : matchHeaderLine keyVersion line.data
    · rfl
    · simp [lineMatchesMeta, hx] at h
  have h5 : matchParamLine line.data = none := by
    cases hx : matchParamLine line.data
    · rfl
    · simp [lineMatchesMeta, hx] at h
  simp only [applyLine, h1, h2, h3, h4, h5]

theorem parseLines_noMatch (lines : List String) (md : TemplateMetadata)
    (h : ∀ l ∈ lines, lineMatchesMeta (goTrimSpace l) = false) :
    parseLines md lines = md := by
  induction lines generalizing md with
  | nil => rfl
  | cons l rest ih =>
    simp only [parseLines]
    split
    · rfl
    · rw [applyLine_noMatch md (goTrimSpace l) (h l (List.mem_cons_self _ _))]
      exact ih md (fun a ha => h a (List.mem_cons_of_mem _ ha))

/-- C6: `parse` is total — the error result of `ParseTemplateMetadata` is
always `nil` — and an input none of whose lines matches a metadata pattern
(in particular, any input with no comment-prefixed metadata line) parses to
the all-zero metadata with an empty parameter sequence. -/
theorem parse_total_and_emptyOnNoMeta (s : String) :
    ParseTemplateMetadata s = Except.ok (parseMetadata s) ∧
    ((∀ l ∈ splitLines s, lineMatchesMeta (goTrimSpace l) = false) →
      parseMetadata s = emptyMetadata) :=
  ⟨rfl, fun h => parseLines_noMatch (splitLines s) emptyMetadata h⟩

/-- Witness for `parse_total_and_emptyOnNoMeta` on a concrete metadata-free
input. -/
theorem parse_total_and_emptyOnNoMeta_witness :
    parseMetadata "abc\n\ndef" = emptyMetadata :=
  (parse_total_and_emptyOnNoMeta "abc\n\ndef").2 (by decide)

/-- A line at which the metadata scan continues: blank after trimming, or
starting with the comment marker. -/
def keepLine (l : String) : Bool :=
  goStartsWithHash (goTrimSpace l) || (goTrimSpace l == "")

theorem parseLines_takeWhile (lines : List String) (md : TemplateMetadata) :
    parseLines md lines = parseLines md (lines.takeWhile keepLine) := by
  induction lines generalizing md with
  | nil => rfl
  | cons l rest ih =>
    cases h1 : goStartsWithHash (goTrimSpace l) <;>
      cases h2 : (goTrimSpace l == "") <;>
        simp only [parseLines, List.takeWhile_cons, keepLine, h1, h2,
          Bool.false_or, Bool.or_false, Bool.or_true, Bool.true_or,
          Bool.not_false, Bool.not_true, Bool.false_and, Bool.true_and,
          Bool.and_false, Bool.and_true, if_true, if_false, ite_true,
          ite_false] <;>
        first
          | rfl
          | exact ih _

/-- C7: the scan inspects exactly the maximal leading run of lines that are
blank or comment-prefixed after trimming; every line from the first other
line on (even a later `#` line) is ignored. -/
theorem parse_prefixOnly (s : String) :
    parseMetadata s =
      parseLines emptyMetadata ((splitLines s).takeWhile keepLine) :=
  parseLines_takeWhile (splitLines s) emptyMetadata

/-! ### C5: parameter types accepted by the parser -/

theorem allTakeWhile {α : Type} (p : α → Bool) (l : List α) :
    (l.takeWhile p).all p = true := by
  induction l with
  | nil => rfl
  | cons x xs ih =>
    rw [List.takeWhile_cons]
    by_cases h : p x = true
    · simp [h, ih]
    · simp [h]

theorem takeWord_sound (cs w r : List Char) (h : takeWord cs = some (w, r)) :
    w ≠ [] ∧ w.all isWordChar = true := by
  unfold takeWord at h
  split at h
  · cases h
  · next hne =>
    injection h with h1
    rw [Prod.mk.injEq] at h1
    obtain ⟨hw, _⟩ := h1
    subst hw
    refine ⟨fun hn => hne (by simp [hn]), allTakeWhile _ _⟩

theorem mkStr_word (r8 ty r5 : List Char) (heq : takeWord r8 = some (ty, r5)) :
    String.mk ty ≠ "" ∧ (String.mk ty).data.all isWordChar = true := by
  obtain ⟨h1, h2⟩ := takeWord_sound r8 ty r5 heq
  exact ⟨fun he => h1 (congrArg String.data he), h2⟩

set_option maxHeartbeats 1000000 in
theorem matchParamLine_typ (cs : List Char) (pr : ParamMatch)
    (h : matchParamLine cs = some pr) :
    pr.typ ≠ "" ∧ pr.typ.data.all isWordChar = true := by
  simp only [matchParamLine] at h
  repeat' (first | (cases h) | (split at h))
  all_goals exact mkStr_word _ _ _ (by assumption)

theorem applyLine_typeInv (md : TemplateMetadata) (line : String)
    (hmd : ∀ p ∈ md.Parameters, p.Typ ≠ "" ∧ p.Typ.data.all isWordChar = true) :
    ∀ p ∈ (applyLine md line).Parameters,
      p.Typ ≠ "" ∧ p.Typ.data.all isWordChar = true := by
  intro p hp
  simp only [applyLine] at hp
  split at hp
  · exact hmd p hp
  · split at hp
    · exact hmd p hp
    · split at hp
      · exact hmd p hp
      · split at hp
        · exact hmd p hp
        · split at hp
          · next pr heq =>
            rcases List.mem_append.mp hp with hin | hnew
            · exact hmd p hin
            · have hpe := List.mem_singleton.mp hnew
              subst hpe
              exact matchParamLine_typ line.data pr heq
          · exact hmd p hp

theorem parseLines_typeInv (lines : List String) (md : TemplateMetadata)
    (hmd : ∀ p ∈ md.Parameters, p.Typ ≠ "" ∧ p.Typ.data.all isWordChar = true) :
    ∀ p ∈ (parseLines md lines).Parameters,
      p.Typ ≠ "" ∧ p.Typ.data.all isWordChar = true := by
  induction lines generalizing md with
  | nil => exact hmd
  | cons l rest ih =>
    simp only [parseLines]
    split
    · exact hmd
    · exact ih (applyLine md (goTrimSpace l))
        (applyLine_typeInv md (goTrimSpace l) hmd)

/-- A parameter line whose type token is outside the five documented
kinds. -/
def c5line : String := "# @param x foobar required \"d\""

/-- C5 counterexample: the parser appends a ParameterInfo whose type is the
word `foobar`, which is none of the five enumerated kinds. -/
theorem paramType_notEnumerated :
    (parseMetadata c5line).Parameters =
      [{ Name := "x", Typ := "foobar", Required := true, Description := "d",
         Default := "", Options := [] }] ∧
    ("foobar" ∉
      (["string", "integer", "boolean", "file_path", "array"] : List String)) := by
  refine ⟨by decide, by decide⟩

/-- C5 (amended): every ParameterInfo appended by `parse` has a non-empty
type made of word characters — the `@param` pattern accepts any such token,
not only the five enumerated kinds; only `integer`, `boolean` and
`file_path` later receive a type-specific value check. -/
theorem paramType_wordToken (s : String) (p : ParameterInfo)
    (hp : p ∈ (parseMetadata s).Parameters) :
    p.Typ ≠ "" ∧ p.Typ.data.all isWordChar = true :=
  parseLines_typeInv (splitLines s) emptyMetadata
    (fun q hq => absurd hq (List.not_mem_nil q)) p hp

/-- Witness for `paramType_wordToken` at the concrete `foobar` line. -/
theorem paramType_wordToken_witness :
    ("foobar" : String) ≠ "" ∧
      ("foobar" : String).data.all isWordChar = true :=
  paramType_wordToken c5line
    { Name := "x", Typ := "foobar", Required := true, Description := "d",
      Default := "", Options := [] }
    (by decide)

/-! ### C3: quoted default values -/

/-- An attribute string whose quoted default value contains whitespace. -/
def c3attrs : String := "default=\"hello world\""

/-- C3: the bare-token alternative of the `default=` pattern wins even when
the value is quoted, so a quoted default containing whitespace is truncated
at the first space: the stored default is `hello`, not `hello world`. -/
theorem defaultQuoted_truncated :
    parseParameterAttributes c3attrs = ("hello", []) ∧
    ("hello" : String) ≠ "hello world" := by
  refine ⟨by decide, by decide⟩

/-! ### C4: the two-line render scenario -/

/-- The two-line scenario template of the spec (`@param port` header, then
a body line with the `port` placeholder). -/
def c4text : String :=
  "# @param port integer optional \"Server port\" default=8080\nlisten \x7b\x7bport\x7d\x7d;"

/-- What `RenderWithValidation` actually produces on `c4text`: the rendered
full content, the metadata comment line included. -/
def c4out : String :=
  "# @param port integer optional \"Server port\" default=8080\nlisten 8080;"

/-- The template value `loadTemplateFromContent` builds from `c4text`. -/
def c4template : Template :=
  { Name := "t", Content := c4text,
    Engine :=
      [Seg.lit "# @param port integer optional \"Server port\" default=8080\nlisten ",
       Seg.var "port", Seg.lit ";"],
    Metadata :=
      { Name := "", Description := "", Author := "", Version := "",
        Parameters :=
          [{ Name := "port", Typ := "integer", Required := false,
             Description := "Server port", Default := "8080", Options := [] }] } }

/-- C4 counterexample: loading succeeds and the validated render succeeds,
but the engine renders the whole raw content, so the output keeps the
metadata comment line and is not the bare `listen 8080;` of the claim. -/
theorem renderScenario_refuted :
    loadTemplateFromContent "t" c4text = Except.ok c4template ∧
    RenderWithValidation c4template [] = Except.ok c4out ∧
    c4out ≠ "listen 8080;" := by
  refine ⟨rfl, rfl, by decide⟩

/-- C4 (amended): on the two-line scenario, loading succeeds, applying
defaults to the empty mapping yields exactly `port = 8080`, and the
validated render succeeds producing the comment header line followed by
`listen 8080;`. -/
theorem renderScenario_amended :
    loadTemplateFromContent "t" c4text = Except.ok c4template ∧
    ApplyDefaults c4template.Metadata [] = [("port", "8080")] ∧
    RenderWithValidation c4template [] = Except.ok
      ("# @param port integer optional \"Server port\" default=8080\nlisten 8080;") := by
  refine ⟨rfl, by decide, rfl⟩
